import Mathlib

/-!
Verification development for the pi-spi-sdk repository.

The embedded components, translated from the repository sources:
  * the pre-generation spec Normalizer (scripts/pre-generate.js),
  * the post-generation model Patcher (scripts/post-generate.js, fixEmptyTypes),
  * the error mapper handleApiError (src/utils error-handler),
  * the QueryBuilder (src/utils query-builder).

JSON documents are modelled as a tree type; JavaScript objects are association
lists in insertion order (the scripts only manipulate non-integer-like string
keys, for which JavaScript preserves insertion order).  JSON numbers are
modelled as integers: no claim depends on fractional values.  A JavaScript
`undefined` that arises from a missing property is modelled by `Option`
(property lookup returns `none`).
-/

inductive Json where
  | null : Json
  | bool : Bool → Json
  | num : Int → Json
  | str : String → Json
  | arr : List Json → Json
  | obj : List (String × Json) → Json

namespace Json

/-- JavaScript truthiness of a JSON value (arrays and objects are truthy,
`null`, `false`, `0` and the empty string are falsy). -/
def truthy : Json → Bool
  | .null => false
  | .bool b => b
  | .num n => n != 0
  | .str s => s != ""
  | .arr _ => true
  | .obj _ => true

end Json

/-- First-match association-list lookup: the model of JavaScript property read
on a plain object. -/
def lookupAssoc {α : Type} : List (String × α) → String → Option α
  | [], _ => none
  | (k, v) :: rest, key => if k = key then some v else lookupAssoc rest key

/-- Property assignment on a JavaScript object: an existing key keeps its
position, a new key is appended at the end (insertion order). -/
def setAssoc {α : Type} : List (String × α) → String → α → List (String × α)
  | [], key, v => [(key, v)]
  | (k, w) :: rest, key, v =>
      if k = key then (key, v) :: rest else (k, w) :: setAssoc rest key v

/-- Truthiness of a possibly-undefined value (`undefined` is falsy). -/
def truthyOpt : Option Json → Bool
  | none => false
  | some v => v.truthy

/-- The JavaScript test `typeof x === 'object'`: true for objects, arrays and
`null`, false for the other primitives and for `undefined`. -/
def typeofIsObject : Option Json → Bool
  | some (.obj _) => true
  | some (.arr _) => true
  | some .null => true
  | _ => false

/-- The JavaScript test `Array.isArray(x)` on a possibly-undefined value. -/
def isArrayOpt : Option Json → Bool
  | some (.arr _) => true
  | _ => false

/-- Property read on a JSON value: `none` (undefined) on non-objects. -/
def jsGet : Json → String → Option Json
  | .obj fs, k => lookupAssoc fs k
  | _, _ => none

/-- Property write on a JSON value (no effect on non-objects). -/
def jsSet : Json → String → Json → Json
  | .obj fs, k, v => .obj (setAssoc fs k v)
  | j, _, _ => j

/-- ASCII lowercase of a string (the method keys compared against the HTTP
method list are plain ASCII; this models String.prototype.toLowerCase there). -/
def lowerStr (s : String) : String := String.mk (s.data.map Char.toLower)

/-- Membership of a string in a list of strings. -/
def memStr (s : String) : List String → Bool
  | [] => false
  | x :: rest => (x == s) || memStr s rest

/-- The recognized HTTP method keys of the pre-generate script. -/
def httpMethods : List String :=
  ["get", "post", "put", "delete", "patch", "options", "head"]

/-- Split a character list on a separator character, keeping empty segments,
as JavaScript String.prototype.split with a one-character separator does. -/
def splitOnChar (sep : Char) : List Char → List (List Char)
  | [] => [[]]
  | c :: rest =>
      let r := splitOnChar sep rest
      if c = sep then [] :: r
      else
        match r with
        | s :: ss => (c :: s) :: ss
        | [] => [[c]]

/-- The opening-brace character, used by the path-parameter test. -/
def lbrace : Char := Char.ofNat 123

/-- A path segment is kept by the operationId synthesis when it is non-empty
and does not start with an opening brace (a path parameter). -/
def segmentKeep (p : List Char) : Bool := !p.isEmpty && p.head? != some lbrace

/-- Capitalize the first character of a segment, as
`p.charAt(0).toUpperCase() + p.slice(1)` does for ASCII segments. -/
def capitalizeSeg : List Char → List Char
  | [] => []
  | c :: cs => c.toUpper :: cs

/-- operationId synthesis of the pre-generate script: lowercased method key
followed by the capitalized non-parameter segments of the path. -/
def synthOperationId (method path : String) : String :=
  lowerStr method ++
    String.mk (((splitOnChar '/' path.data).filter segmentKeep).map capitalizeSeg).flatten

/-- Does the operation object have a `tags` key holding a non-empty array? -/
def hasNonEmptyTags (ofs : List (String × Json)) : Bool :=
  match lookupAssoc ofs "tags" with
  | some (.arr (_ :: _)) => true
  | _ => false

/-- The tags fix of the pre-generate script: when `tags` is missing, not an
array, or an empty array, set it to `["Default"]` and report a fix. -/
def fixTags (ofs : List (String × Json)) : List (String × Json) × Bool :=
  match lookupAssoc ofs "tags" with
  | some (.arr (_ :: _)) => (ofs, false)
  | _ => (setAssoc ofs "tags" (.arr [.str "Default"]), true)

/-- The operationId fix of the pre-generate script: when `operationId` is
missing or falsy, set it to the synthesized id. -/
def fixOperationId (methodKey path : String) (ofs : List (String × Json)) :
    List (String × Json) :=
  if truthyOpt (lookupAssoc ofs "operationId") then ofs
  else setAssoc ofs "operationId" (.str (synthOperationId methodKey path))

/-- Normalization of one operation object found under an HTTP-method key:
the tags fix followed by the operationId fix, returning the count of tag
fixes (0 or 1). -/
def normalizeOp (methodKey path : String) (ofs : List (String × Json)) :
    List (String × Json) × Nat :=
  let t := fixTags ofs
  (fixOperationId methodKey path t.1, if t.2 then 1 else 0)

/-- Normalization of the entries of one path item.  Returns the new entry
list, the fixed-paths count and the removed-null-operations count.  For an
HTTP-method key: a null value is deleted and counted; an object value is
normalized; an array value (`typeof` is object in JavaScript) gets `tags` and
`operationId` assigned as array properties, which JSON serialization drops, so
the written value is the unchanged array while the fixed-paths counter still
increments (a freshly parsed array never has a `tags` property); any other
value is skipped and left as-is. -/
def normalizeEntries (path : String) :
    List (String × Json) → List (String × Json) × Nat × Nat
  | [] => ([], 0, 0)
  | (k, v) :: rest =>
      let r := normalizeEntries path rest
      if memStr (lowerStr k) httpMethods then
        match v with
        | .null => (r.1, r.2.1, r.2.2 + 1)
        | .obj ofs =>
            let o := normalizeOp k path ofs
            ((k, .obj o.1) :: r.1, r.2.1 + o.2, r.2.2)
        | .arr xs => ((k, .arr xs) :: r.1, r.2.1 + 1, r.2.2)
        | v' => ((k, v') :: r.1, r.2.1, r.2.2)
      else ((k, v) :: r.1, r.2.1, r.2.2)

/-- Normalization of one path item: only values that are truthy and of
object type are processed; an array path item is left unchanged because its
enumerable keys are indices, never HTTP-method names. -/
def normalizePathItem (path : String) : Json → Json × Nat × Nat
  | .obj fs =>
      let r := normalizeEntries path fs
      (.obj r.1, r.2.1, r.2.2)
  | item => (item, 0, 0)

/-- Normalization of the entries of the `paths` object. -/
def normalizePathsEntries :
    List (String × Json) → List (String × Json) × Nat × Nat
  | [] => ([], 0, 0)
  | (p, item) :: rest =>
      let h := normalizePathItem p item
      let r := normalizePathsEntries rest
      ((p, h.1) :: r.1, h.2.1 + r.2.1, h.2.2 + r.2.2)

/-- Normalization of the elements of an array-valued `paths` (its
`Object.entries` keys are the decimal index strings). -/
def normalizePathsArr (i : Nat) : List Json → List Json × Nat × Nat
  | [] => ([], 0, 0)
  | x :: rest =>
      let h := normalizePathItem (Nat.repr i) x
      let r := normalizePathsArr (i + 1) rest
      (h.1 :: r.1, h.2.1 + r.2.1, h.2.2 + r.2.2)

/-- Normalization of the `paths` value (an object or, since `typeof` also
accepts arrays, an array; validation excludes every other shape). -/
def normalizePaths : Json → Json × Nat × Nat
  | .obj fs =>
      let r := normalizePathsEntries fs
      (.obj r.1, r.2.1, r.2.2)
  | .arr xs =>
      let r := normalizePathsArr 0 xs
      (.arr r.1, r.2.1, r.2.2)
  | j => (j, 0, 0)

/-- The pre-generate script on a parsed document: the four structural
validation checks in source order, then the top-level tags repair, then the
per-path normalization.  On success it returns the document to be written
together with the fixed-paths and removed-null-operations counters; on
failure it returns the diagnostic and nothing is written. -/
def normalizeSpec (spec : Json) : Except String (Json × Nat × Nat) :=
  if truthyOpt (jsGet spec "openapi") = false then
    .error "Missing \"openapi\" field"
  else if truthyOpt (jsGet spec "info") = false then
    .error "Missing \"info\" field"
  else if (truthyOpt (jsGet spec "paths") && typeofIsObject (jsGet spec "paths")) = false then
    .error "Missing or invalid \"paths\" field"
  else if (truthyOpt (jsGet spec "components") && typeofIsObject (jsGet spec "components")) = false then
    .error "Missing or invalid \"components\" field"
  else
    let spec1 :=
      if (truthyOpt (jsGet spec "tags") && isArrayOpt (jsGet spec "tags")) = false
      then jsSet spec "tags" (.arr []) else spec
    let pr := normalizePaths ((jsGet spec1 "paths").getD .null)
    .ok (jsSet spec1 "paths" pr.1, pr.2.1, pr.2.2)

/-- One hexadecimal digit, lowercase. -/
def hexDigit (n : Nat) : Char :=
  if n < 10 then Char.ofNat (48 + n) else Char.ofNat (87 + n)

/-- JSON string escaping as JSON.stringify performs it: quote, backslash and
control characters are escaped, everything else is kept verbatim. -/
def escapeChar (c : Char) : String :=
  if c = '"' then "\\\""
  else if c = '\\' then "\\\\"
  else if c = '\x08' then "\\b"
  else if c = '\x09' then "\\t"
  else if c = '\x0a' then "\\n"
  else if c = '\x0c' then "\\f"
  else if c = '\x0d' then "\\r"
  else if c.toNat < 32 then
    "\\u00" ++ String.mk [hexDigit (c.toNat / 16), hexDigit (c.toNat % 16)]
  else String.singleton c

/-- A double-quoted, escaped JSON string literal. -/
def quoteStr (s : String) : String :=
  "\"" ++ (s.data.map escapeChar).foldl (· ++ ·) "" ++ "\""

mutual

/-- Pretty-printing with two-space indentation, the model of
`JSON.stringify(spec, null, 2)`.  `pad` is the indentation of the closing
bracket of the value being printed. -/
def serializeJson (pad : String) : Json → String
  | .null => "null"
  | .bool true => "true"
  | .bool false => "false"
  | .num n => n.repr
  | .str s => quoteStr s
  | .arr [] => "[]"
  | .arr (x :: xs) =>
      "[\n" ++ serializeArr (pad ++ "  ") (x :: xs) ++ "\n" ++ pad ++ "]"
  | .obj [] => "\x7b\x7d"
  | .obj (f :: fs) =>
      "\x7b\n" ++ serializeObj (pad ++ "  ") (f :: fs) ++ "\n" ++ pad ++ "\x7d"

/-- Array items, one per line, comma-separated. -/
def serializeArr (pad : String) : List Json → String
  | [] => ""
  | [x] => pad ++ serializeJson pad x
  | x :: y :: rest =>
      pad ++ serializeJson pad x ++ ",\n" ++ serializeArr pad (y :: rest)

/-- Object members, one per line, comma-separated. -/
def serializeObj (pad : String) : List (String × Json) → String
  | [] => ""
  | [(k, v)] => pad ++ quoteStr k ++ ": " ++ serializeJson pad v
  | (k, v) :: f :: fs =>
      pad ++ quoteStr k ++ ": " ++ serializeJson pad v ++ ",\n" ++
        serializeObj pad (f :: fs)

end

/-- The serialized form the pre-generate script writes back to disk. -/
def prettyPrintSpec (d : Json) : String := serializeJson "" d

/-- The model of the full script run: on success the pretty-printed document
that `writeFileSync` puts on disk, on a validation failure `none` — the
process exits non-zero before any write. -/
def preGenerate (spec : Json) : Option String :=
  match normalizeSpec spec with
  | .ok r => some (prettyPrintSpec r.1)
  | .error _ => none

/-!
The post-generation Patcher (fixEmptyTypes).  File contents are character
lists; the three regex-based repair rules are modelled by explicit scanners
with the same maximal-munch semantics (each quantifier in the source patterns
is followed by a character it can never match, so JavaScript backtracking
never produces a shorter match than the greedy one).
-/

/-- The JavaScript regex class `\s` (the ASCII whitespace characters plus
no-break space and the BOM; other rare Unicode space characters never occur
in generated model files and are omitted). -/
def isWs (c : Char) : Bool :=
  c = ' ' || c = '\x09' || c = '\x0a' || c = '\x0d' || c = '\x0b' ||
    c = '\x0c' || c = Char.ofNat 160 || c = Char.ofNat 65279

/-- The JavaScript regex class `\w` (ASCII letters, digits and underscore). -/
def isWordChar (c : Char) : Bool := c.isAlphanum || c = '_'

/-- Consume an exact literal prefix, returning the remainder. -/
def dropLiteral : List Char → List Char → Option (List Char)
  | cs, [] => some cs
  | [], _ :: _ => none
  | c :: cs, p :: ps => if c = p then dropLiteral cs ps else none

theorem dropLiteral_length_le :
    ∀ (cs pat r : List Char), dropLiteral cs pat = some r → r.length ≤ cs.length := by
  intro cs pat
  induction pat generalizing cs with
  | nil => intro r h; simp [dropLiteral] at h; simp [h]
  | cons p ps ih =>
      intro r h
      cases cs with
      | nil => simp [dropLiteral] at h
      | cons c cs' =>
          simp only [dropLiteral] at h
          by_cases hc : c = p
          · simp [hc] at h
            exact Nat.le_succ_of_le (ih cs' r h)
          · simp [hc] at h

theorem dropLiteral_length_lt :
    ∀ (cs : List Char) (p : Char) (ps r : List Char),
      dropLiteral cs (p :: ps) = some r → r.length < cs.length := by
  intro cs p ps r h
  cases cs with
  | nil => simp [dropLiteral] at h
  | cons c cs' =>
      simp only [dropLiteral] at h
      by_cases hc : c = p
      · simp [hc] at h
        exact Nat.lt_succ_of_le (dropLiteral_length_le cs' ps r h)
      · simp [hc] at h

theorem dropWhile_length_le {α : Type} (p : α → Bool) :
    ∀ l : List α, (List.dropWhile p l).length ≤ l.length := by
  intro l
  induction l with
  | nil => simp [List.dropWhile]
  | cons a l ih =>
      simp only [List.dropWhile]
      cases p a <;> simp
      exact Nat.le_succ_of_le ih

/-- After the leading whitespace of rule 2: the literal `remise`, an optional
question mark, a colon, optional whitespace, then the terminating semicolon.
Returns the remainder after the semicolon. -/
def remiseTail (cs : List Char) : Option (List Char) :=
  match dropLiteral cs ['r', 'e', 'm', 'i', 's', 'e'] with
  | none => none
  | some cs1 =>
      let cs2 := match cs1 with
        | c :: r => if c = '?' then r else c :: r
        | [] => []
      match cs2 with
      | c :: cs3 =>
          if c = ':' then
            match List.dropWhile isWs cs3 with
            | c2 :: rest => if c2 = ';' then some rest else none
            | [] => none
          else none
      | [] => none

theorem remiseTail_length_lt (cs r : List Char) :
    remiseTail cs = some r → r.length < cs.length := by
  intro h
  unfold remiseTail at h
  cases hd : dropLiteral cs ['r', 'e', 'm', 'i', 's', 'e'] with
  | none => rw [hd] at h; exact absurd h (by simp)
  | some cs1 =>
      rw [hd] at h
      have h1 : cs1.length < cs.length := dropLiteral_length_lt cs 'r' _ cs1 hd
      simp only at h
      have main : ∀ cs2 : List Char, cs2.length ≤ cs1.length →
          (match cs2 with
            | c :: cs3 =>
                if c = ':' then
                  match List.dropWhile isWs cs3 with
                  | c2 :: rest => if c2 = ';' then some rest else none
                  | [] => none
                else none
            | [] => none) = some r → r.length < cs.length := by
        intro cs2 hle h2
        cases cs2 with
        | nil => simp at h2
        | cons c cs3 =>
            simp only at h2
            by_cases hc : c = ':'
            · rw [if_pos hc] at h2
              cases hw : List.dropWhile isWs cs3 with
              | nil => rw [hw] at h2; exact absurd h2 (by simp)
              | cons c2 rest =>
                  rw [hw] at h2
                  simp only at h2
                  by_cases hc2 : c2 = ';'
                  · rw [if_pos hc2] at h2
                    have hr : rest = r := by simpa using h2
                    have hlen : (c2 :: rest).length ≤ cs3.length := by
                      rw [← hw]; exact dropWhile_length_le isWs cs3
                    simp only [List.length_cons] at hlen hle
                    subst hr
                    omega
                  · rw [if_neg hc2] at h2; exact absurd h2 (by simp)
            · rw [if_neg hc] at h2; exact absurd h2 (by simp)
      cases cs1 with
      | nil => exact main [] (by simp) h
      | cons c r1 =>
          by_cases hq : c = '?'
          · refine main r1 (by simp) ?_
            simpa [hq] using h
          · refine main (c :: r1) (by simp) ?_
            simpa [hq] using h

/-- The correction-table entry for `remise`. -/
def remiseBody : String := "\x7b\n    montant?: number;\n    taux?: number;\n\x7d"

/-- The replacement text of rule 2 after the captured whitespace:
the template `$1$2?: <table entry>` with `$2` always `remise` (note: no
trailing semicolon — the matched semicolon is consumed). -/
def remiseOptionalText : List Char := ("remise?: " ++ remiseBody).data

/-- Rule 2 of fixEmptyTypes: the global replacement
`content.replace(remisePattern, ...)` for the pattern of one-or-more
whitespace, `remise`, optional question mark, colon, optional whitespace and
a semicolon; the captured whitespace is preserved, the field is rewritten in
the optional form, and scanning resumes after the consumed semicolon.  The
recursion is structural on a step bound; every step consumes at least one
input character (`remiseTail` consumes the match, at least eight characters,
see `remiseTail_length_lt`), so a bound equal to the input length — set by
`replaceRemise` — is never exhausted. -/
def replaceRemiseGo : Nat → List Char → List Char
  | 0, cs => cs
  | _ + 1, [] => []
  | fuel + 1, c :: rest =>
      if isWs c then
        match remiseTail (List.dropWhile isWs (c :: rest)) with
        | some rest' =>
            List.takeWhile isWs (c :: rest) ++ remiseOptionalText ++
              replaceRemiseGo fuel rest'
        | none => c :: replaceRemiseGo fuel rest
      else c :: replaceRemiseGo fuel rest

def replaceRemise (cs : List Char) : List Char := replaceRemiseGo cs.length cs

/-- The test `remisePattern.test(content)`: does the rule-2 pattern match
anywhere in the content? -/
def hasRemiseMatch : List Char → Bool
  | [] => false
  | c :: rest =>
      if isWs c then
        (remiseTail (List.dropWhile isWs (c :: rest))).isSome || hasRemiseMatch rest
      else hasRemiseMatch rest

/-- Rule 3 matcher: the literal `remise:` followed by optional whitespace and
a semicolon (the pattern `remise:\s*;`, no whitespace prefix, no optional
question mark).  Returns the remainder after the semicolon. -/
def bareTail (cs : List Char) : Option (List Char) :=
  match dropLiteral cs ['r', 'e', 'm', 'i', 's', 'e', ':'] with
  | none => none
  | some cs1 =>
      match List.dropWhile isWs cs1 with
      | c :: rest => if c = ';' then some rest else none
      | [] => none

theorem bareTail_length_lt (cs r : List Char) :
    bareTail cs = some r → r.length < cs.length := by
  intro h
  unfold bareTail at h
  cases hd : dropLiteral cs ['r', 'e', 'm', 'i', 's', 'e', ':'] with
  | none => rw [hd] at h; exact absurd h (by simp)
  | some cs1 =>
      rw [hd] at h
      simp only at h
      have h1 : cs1.length < cs.length := dropLiteral_length_lt cs 'r' _ cs1 hd
      cases hw : List.dropWhile isWs cs1 with
      | nil => rw [hw] at h; exact absurd h (by simp)
      | cons c rest =>
          rw [hw] at h
          simp only at h
          by_cases hc : c = ';'
          · rw [if_pos hc] at h
            have hr : rest = r := by simpa using h
            have hlen : (c :: rest).length ≤ cs1.length := by
              rw [← hw]; exact dropWhile_length_le isWs cs1
            simp only [List.length_cons] at hlen
            subst hr
            omega
          · rw [if_neg hc] at h; exact absurd h (by simp)

/-- Rule 3 of fixEmptyTypes: the global replacement
`content.replace(/remise:\s*;/g, ...)` keeping the field required (the
template is `remise: <table entry>`, again without a trailing semicolon).
Structural on a step bound exactly as in `replaceRemiseGo`; the bound set by
`replaceRemiseBare` is never exhausted (see `bareTail_length_lt`). -/
def replaceRemiseBareGo : Nat → List Char → List Char
  | 0, cs => cs
  | _ + 1, [] => []
  | fuel + 1, c :: rest =>
      match bareTail (c :: rest) with
      | some rest' => ("remise: " ++ remiseBody).data ++ replaceRemiseBareGo fuel rest'
      | none => c :: replaceRemiseBareGo fuel rest

def replaceRemiseBare (cs : List Char) : List Char :=
  replaceRemiseBareGo cs.length cs

/-- Does `pat` occur as a prefix of `cs`? -/
def startsWithL : List Char → List Char → Bool
  | _, [] => true
  | [], _ :: _ => false
  | c :: cs, p :: ps => c = p && startsWithL cs ps

/-- The test `content.includes(pat)` for a literal pattern. -/
def containsLiteral (pat : List Char) : List Char → Bool
  | [] => startsWithL [] pat
  | c :: rest => startsWithL (c :: rest) pat || containsLiteral pat rest

/-- `String.prototype.replace` with a string pattern: replace the first
occurrence of the literal `pat` by `rep`; without an occurrence the content
is unchanged. -/
def replaceFirstL (cs pat rep : List Char) : List Char :=
  match cs with
  | [] => []
  | c :: rest =>
      if startsWithL (c :: rest) pat then rep ++ (c :: rest).drop pat.length
      else c :: replaceFirstL rest pat rep

/-- Rule 1 matcher at one position: the pattern
`export type (\w+) = \s*;` — the literal `export type `, a captured word of
one or more word characters, the literal ` = `, optional whitespace and a
semicolon.  Returns the captured name and the match length. -/
def emptyTypeMatchAt (cs : List Char) : Option (String × Nat) :=
  match dropLiteral cs "export type ".data with
  | none => none
  | some cs1 =>
      let w := List.takeWhile isWordChar cs1
      if w.isEmpty then none
      else
        match dropLiteral (List.dropWhile isWordChar cs1) [' ', '=', ' '] with
        | none => none
        | some cs2 =>
            let ws := List.takeWhile isWs cs2
            match List.dropWhile isWs cs2 with
            | c :: _ =>
                if c = ';' then
                  some (String.mk w, 12 + w.length + 3 + ws.length + 1)
                else none
            | [] => none

/-- `regex.exec(content)` resumed at `lastIndex`: the first rule-1 match at
or after that position, returned as the captured name together with the index
just past the match (the new `lastIndex`). -/
def findEmptyTypeGo : List Char → Nat → Option (String × Nat)
  | [], _ => none
  | c :: rest, pos =>
      match emptyTypeMatchAt (c :: rest) with
      | some (name, len) => some (name, pos + len)
      | none => findEmptyTypeGo rest (pos + 1)

def findEmptyTypeFrom (content : List Char) (lastIndex : Nat) :
    Option (String × Nat) :=
  findEmptyTypeGo (content.drop lastIndex) lastIndex

/-- The correction table `emptyTypeFixes` of the post-generate script. -/
def emptyTypeFixes : List (String × String) :=
  [("CompteTransfertIntraRequest",
    "\x7b\n    txId: string;\n    montant: number;\n    motif?: string;\n    payeurNumero?: string;\n    payeNumero?: string;\n    payeurAlias?: string;\n    payeAlias?: string;\n\x7d"),
   ("WebhookModificationRequest",
    "\x7b\n    callbackUrl?: string;\n    alias?: string;\n\x7d"),
   ("remise", remiseBody)]

/-- The rule-1 `while ((match = emptyTypePattern.exec(content)) !== null)`
loop.  The global regex keeps its `lastIndex` across iterations while
`content` is reassigned by the replacement, exactly as in the source.  A
table hit replaces the first occurrence of the literal
`export type <Name> = ;` (note: the single-space literal, not the regex
match) and counts one fix; an unknown name only advances `lastIndex`.  The
source loop terminates because every iteration moves `lastIndex` past a
match and replacement bodies contain no new match; the recursion is made
structural on an explicit iteration bound that the initial call sets to the
content length, ample for every run considered here. -/
def execEmptyTypeLoop : Nat → List Char → Nat → List Char × Nat
  | 0, content, _ => (content, 0)
  | fuel + 1, content, lastIndex =>
      match findEmptyTypeFrom content lastIndex with
      | none => (content, 0)
      | some (name, endIdx) =>
          match lookupAssoc emptyTypeFixes name with
          | some body =>
              let pat := ("export type " ++ name ++ " = ;").data
              let rep := ("export type " ++ name ++ " = " ++ body ++ ";").data
              let r := execEmptyTypeLoop fuel (replaceFirstL content pat rep) endIdx
              (r.1, r.2 + 1)
          | none => execEmptyTypeLoop fuel content endIdx

/-- The result of fixEmptyTypes on one file: the new content, the number of
fixes contributed by the file, and whether the file was modified (and hence
rewritten on disk). -/
structure PatchResult where
  content : String
  fixed : Nat
  modified : Bool

/-- fixEmptyTypes on the content of one generated model file: rule 1 (the
exec loop over named empty type aliases), then rule 2 (the inline `remise`
field rewrite, counted once per file when the test matches), then rule 3
(the literal `remise: ;` rewrite, also counted once per file). -/
def fixFileContent (content : String) : PatchResult :=
  let cs := content.data
  let r1 := execEmptyTypeLoop (cs.length + 1) cs 0
  let m1 := decide (0 < r1.2)
  let r2 := if hasRemiseMatch r1.1 then (replaceRemise r1.1, 1, true)
            else (r1.1, 0, false)
  let r3 := if containsLiteral "remise: ;".data r2.1 then
              (replaceRemiseBare r2.1, 1, true)
            else (r2.1, 0, false)
  ⟨String.mk r3.1, r1.2 + r2.2.1 + r3.2.1, m1 || r2.2.2 || r3.2.2⟩

/-- The write decision of fixEmptyTypes: `writeFileSync` runs only when the
file was modified; `none` models an untouched on-disk file. -/
def patchFile (content : String) : Option String :=
  let r := fixFileContent content
  if r.modified then some r.content else none

/-!
The error mapper handleApiError.  Thrown values are modelled as JSON trees
(the duck-typing in the source only inspects enumerable data properties).
A JavaScript `undefined` arising from a missing property is collapsed to
`Json.null`: the mapper only ever passes such values through truthiness
tests and constructor arguments, where the two are interchangeable. -/

/-- The five SDK error classes, with the constructor arguments the source
passes to them. -/
inductive PiSpiErr where
  | validation (message status statusText invalidParams etype detail : Json)
  | auth (message status statusText : Json)
  | notFound (message status statusText : Json)
  | rateLimit (message status statusText : Json)
  | generic (message status statusText etype detail inst : Json)

/-- The outcome of handleApiError: it always throws — either one of the SDK
errors, or the original value re-thrown unchanged. -/
inductive Thrown where
  | sdk (e : PiSpiErr)
  | reraise (v : Json)

/-- Property read collapsing `undefined` to null (see above). -/
def propJs (v : Json) (k : String) : Json :=
  match v with
  | .obj fs => (lookupAssoc fs k).getD .null
  | _ => .null

/-- The JavaScript `||` operator: the first operand when truthy, otherwise
the second. -/
def jsOr (a b : Json) : Json := if a.truthy then a else b

/-- The duck-type test of the source: a truthy object value with `status`,
`statusText` and `body` properties ('in' checks presence, not truthiness). -/
def hasApiShape : Json → Bool
  | .obj fs =>
      (lookupAssoc fs "status").isSome && (lookupAssoc fs "statusText").isSome &&
        (lookupAssoc fs "body").isSome
  | _ => false

/-- Strict equality of a JSON value with a number literal. -/
def jsEqNum (v : Json) (n : Int) : Bool :=
  match v with
  | .num m => m == n
  | _ => false

/-- handleApiError from the error-handler utility: classify an ApiError-shaped
value by its status code into one of the five SDK errors; re-throw every
other value unchanged. -/
def handleApiError (error : Json) : Thrown :=
  if hasApiShape error then
    let status := propJs error "status"
    let statusText := propJs error "statusText"
    let body := propJs error "body"
    let etype := propJs body "type"
    let title := jsOr (propJs body "title") statusText
    let detail := jsOr (propJs body "detail") (propJs error "message")
    let inst := propJs body "instance"
    if jsEqNum status 400 then
      .sdk (.validation (jsOr detail (jsOr title (.str "Validation error")))
        status statusText
        (jsOr (propJs body "invalidParams") (propJs body "errors")) etype detail)
    else if jsEqNum status 401 then
      .sdk (.auth (jsOr detail (jsOr title (.str "Authentication failed")))
        status statusText)
    else if jsEqNum status 403 then
      .sdk (.generic (jsOr detail (jsOr title (.str "Forbidden")))
        status statusText etype detail inst)
    else if jsEqNum status 404 then
      .sdk (.notFound (jsOr detail (jsOr title (.str "Resource not found")))
        status statusText)
    else if jsEqNum status 429 then
      .sdk (.rateLimit (jsOr detail (jsOr title (.str "Rate limit exceeded")))
        status statusText)
    else
      .sdk (.generic
        (jsOr detail (jsOr title (jsOr (propJs error "message") (.str "API error"))))
        status statusText etype detail inst)
  else .reraise error

/-!
The QueryBuilder.  Filter operators and values travel through the builder as
runtime values; the overloaded second argument of `filter` is a string, a
number, a boolean or a string array.  The filters map is modelled as an
association list with the insertion-order update semantics of a JavaScript
Map (an existing key keeps its position). -/

/-- A runtime filter value (or the overloaded operator-or-value argument). -/
inductive FVal where
  | str (s : String)
  | num (n : Int)
  | bool (b : Bool)
  | list (xs : List String)
deriving DecidableEq

/-- A stored filter: the operator slot (kept as a runtime value, as the
source merely casts it) and the value. -/
structure FilterOpts where
  operator : FVal
  value : FVal
deriving DecidableEq

/-- A rendered query-parameter value: string or number. -/
inductive QVal where
  | str (s : String)
  | num (n : Int)
deriving DecidableEq

inductive SortOrder where
  | asc
  | desc
deriving DecidableEq

/-- The builder state: custom/pagination params, the filters map, and the
single sort field with its order. -/
structure QueryBuilder where
  params : List (String × QVal)
  filters : List (String × FilterOpts)
  sortField : Option String
  sortOrder : SortOrder

def QueryBuilder.init : QueryBuilder := ⟨[], [], none, .asc⟩

/-- The recognized filter operator names. -/
def isOperator (s : String) : Bool :=
  memStr s
    ["eq", "ne", "gt", "gte", "lt", "lte", "in", "contains", "notContains",
     "beginsWith", "endsWith", "exists"]

/-- QueryBuilder.filter.  With two arguments (`value` absent): a string that
names an operator is an error, any other argument becomes the value of an
equality filter.  With three arguments the second is the operator and the
third the value. -/
def QueryBuilder.filter (qb : QueryBuilder) (field : String)
    (operatorOrValue : FVal) (value : Option FVal) :
    Except String QueryBuilder :=
  match value with
  | none =>
      match operatorOrValue with
      | .str s =>
          if isOperator s then .error "Filter operator requires a value"
          else .ok ⟨qb.params, setAssoc qb.filters field ⟨.str "eq", .str s⟩,
            qb.sortField, qb.sortOrder⟩
      | v =>
          .ok ⟨qb.params, setAssoc qb.filters field ⟨.str "eq", v⟩,
            qb.sortField, qb.sortOrder⟩
  | some v =>
      .ok ⟨qb.params, setAssoc qb.filters field ⟨operatorOrValue, v⟩,
        qb.sortField, qb.sortOrder⟩

/-- QueryBuilder.sort: remember the single sort field and order. -/
def QueryBuilder.sort (qb : QueryBuilder) (field : String) (order : SortOrder) :
    QueryBuilder :=
  ⟨qb.params, qb.filters, some field, order⟩

/-- QueryBuilder.page: a number is stringified, a string is stored as-is. -/
def QueryBuilder.page (qb : QueryBuilder) (p : QVal) : QueryBuilder :=
  let v : QVal := match p with
    | .str s => .str s
    | .num n => .str n.repr
  ⟨setAssoc qb.params "page" v, qb.filters, qb.sortField, qb.sortOrder⟩

/-- QueryBuilder.size: bounds-checked at call time, stored as a number. -/
def QueryBuilder.size (qb : QueryBuilder) (n : Int) : Except String QueryBuilder :=
  if n < 1 then .error "Page size must be at least 1"
  else if n > 100 then .error "Page size cannot exceed 100"
  else .ok ⟨setAssoc qb.params "size" (.num n), qb.filters, qb.sortField,
    qb.sortOrder⟩

/-- JavaScript `String(value)` on a filter value (an array stringifies to its
comma-joined elements, matching the explicit `join(',')` of the source). -/
def fvalToString : FVal → String
  | .str s => s
  | .num n => n.repr
  | .bool true => "true"
  | .bool false => "false"
  | .list xs => String.intercalate "," xs

/-- QueryBuilder.build: start from the custom params, render each filter
(`eq` bare, `exists` and the rest in bracket notation), then the sort
parameter, `-`-prefixed when descending. -/
def QueryBuilder.build (qb : QueryBuilder) : List (String × QVal) :=
  let withFilters := qb.filters.foldl
    (fun acc kv =>
      let field := kv.1
      let op := kv.2.operator
      let v := kv.2.value
      if op = .str "eq" then setAssoc acc field (.str (fvalToString v))
      else if op = .str "exists" then
        setAssoc acc (field ++ "[exists]") (.str (fvalToString v))
      else
        setAssoc acc (field ++ "[" ++ fvalToString op ++ "]")
          (.str (fvalToString v)))
    qb.params
  match qb.sortField with
  | some f =>
      setAssoc withFilters "sort"
        (.str (match qb.sortOrder with | .desc => "-" ++ f | .asc => f))
  | none => withFilters

/-!
Statement ingredients: the post-normalization invariants (both as the spec
claims them and in the amended form the code satisfies), the array-free side
condition, and basic association-list lemmas. -/

/-- Amended per-operation invariant: non-empty `tags` array and truthy
`operationId`. -/
def opInvariant (ofs : List (String × Json)) : Bool :=
  hasNonEmptyTags ofs && truthyOpt (lookupAssoc ofs "operationId")

/-- Amended per-entry invariant for a path item: an HTTP-method key never
maps to null, and when it maps to an object that operation satisfies
`opInvariant`; non-object method values (which the Normalizer skips) are
exempt. -/
def entryInvariant : String × Json → Bool
  | (k, v) =>
      if memStr (lowerStr k) httpMethods then
        match v with
        | .null => false
        | .obj ofs => opInvariant ofs
        | _ => true
      else true

def pathItemInvariant : Json → Bool
  | .obj fs => fs.all entryInvariant
  | _ => true

def pathsInvariant : Json → Bool
  | .obj fs => fs.all (fun kv => pathItemInvariant kv.2)
  | .arr xs => xs.all pathItemInvariant
  | _ => true

/-- Amended post-normalization document invariant. -/
def specInvariant (d : Json) : Bool :=
  isArrayOpt (jsGet d "tags") && pathsInvariant ((jsGet d "paths").getD .null)

/-- The claimed per-operation condition: non-empty `tags` array and an
`operationId` that is a non-empty string; a non-object method value cannot
satisfy it. -/
def claimOpOk : Json → Bool
  | .obj ofs =>
      hasNonEmptyTags ofs &&
        (match lookupAssoc ofs "operationId" with
         | some (.str s) => s != ""
         | _ => false)
  | _ => false

/-- The claimed per-entry condition: every HTTP-method key maps to a
non-null value whose operation satisfies `claimOpOk`. -/
def claimEntryOk : String × Json → Bool
  | (k, v) =>
      if memStr (lowerStr k) httpMethods then
        match v with
        | .null => false
        | _ => claimOpOk v
      else true

def claimPathItemOk : Json → Bool
  | .obj fs => fs.all claimEntryOk
  | _ => true

def claimPathsOk : Json → Bool
  | .obj fs => fs.all (fun kv => claimPathItemOk kv.2)
  | .arr xs => xs.all claimPathItemOk
  | _ => true

/-- The claimed post-normalization invariant, exactly as stated. -/
def claimSpecOk (d : Json) : Bool :=
  isArrayOpt (jsGet d "tags") && claimPathsOk ((jsGet d "paths").getD .null)

/-- No HTTP-method key maps to an array in this path-item entry. -/
def entryArrFree : String × Json → Bool
  | (k, v) =>
      if memStr (lowerStr k) httpMethods then
        match v with
        | .arr _ => false
        | _ => true
      else true

def pathItemArrFree : Json → Bool
  | .obj fs => fs.all entryArrFree
  | _ => true

def pathsArrFree : Json → Bool
  | .obj fs => fs.all (fun kv => pathItemArrFree kv.2)
  | .arr xs => xs.all pathItemArrFree
  | _ => true

/-- The side condition of the amended idempotence claim: no HTTP-method key
of any path item maps to a JSON array. -/
def specArrFree (d : Json) : Bool :=
  pathsArrFree ((jsGet d "paths").getD .null)

theorem lookupAssoc_setAssoc_self {α : Type} (fs : List (String × α)) (k : String) (v : α) :
    lookupAssoc (setAssoc fs k v) k = some v := by
  induction fs with
  | nil => simp [setAssoc, lookupAssoc]
  | cons hd rest ih =>
      obtain ⟨k0, v0⟩ := hd
      by_cases hk : k0 = k
      · simp [setAssoc, hk, lookupAssoc]
      · simp [setAssoc, hk, lookupAssoc, ih]

theorem lookupAssoc_setAssoc_ne {α : Type} (fs : List (String × α)) (k k' : String) (v : α)
    (h : k' ≠ k) : lookupAssoc (setAssoc fs k v) k' = lookupAssoc fs k' := by
  have hne : k ≠ k' := fun hh => h hh.symm
  induction fs with
  | nil => simp [setAssoc, lookupAssoc, hne]
  | cons hd rest ih =>
      obtain ⟨k0, v0⟩ := hd
      by_cases hk : k0 = k
      · subst hk
        simp [setAssoc, lookupAssoc, hne]
      · simp [setAssoc, hk, lookupAssoc, ih]

theorem setAssoc_of_lookup_self {α : Type} (fs : List (String × α)) (k : String) (v : α)
    (h : lookupAssoc fs k = some v) : setAssoc fs k v = fs := by
  induction fs with
  | nil => simp [lookupAssoc] at h
  | cons hd rest ih =>
      obtain ⟨k0, v0⟩ := hd
      by_cases hk : k0 = k
      · subst hk
        simp [lookupAssoc] at h
        simp [setAssoc, h]
      · simp [lookupAssoc, hk] at h
        simp [setAssoc, hk, ih h]

/-!
Lemmas about the Normalizer fixes. -/

theorem fixTags_hasNonEmptyTags (ofs : List (String × Json)) :
    hasNonEmptyTags (fixTags ofs).1 = true := by
  unfold fixTags hasNonEmptyTags
  cases h : lookupAssoc ofs "tags" with
  | none => simp [lookupAssoc_setAssoc_self]
  | some v =>
      cases v with
      | arr xs =>
          cases xs with
          | nil => simp [h, lookupAssoc_setAssoc_self]
          | cons a as => simp [h]
      | null => simp [h, lookupAssoc_setAssoc_self]
      | bool b => simp [h, lookupAssoc_setAssoc_self]
      | num n => simp [h, lookupAssoc_setAssoc_self]
      | str s => simp [h, lookupAssoc_setAssoc_self]
      | obj fs => simp [h, lookupAssoc_setAssoc_self]

theorem fixTags_of_inv (ofs : List (String × Json))
    (h : hasNonEmptyTags ofs = true) : fixTags ofs = (ofs, false) := by
  unfold hasNonEmptyTags at h
  unfold fixTags
  cases hl : lookupAssoc ofs "tags" with
  | none => rw [hl] at h; simp at h
  | some v =>
      rw [hl] at h
      cases v with
      | arr xs =>
          cases xs with
          | nil => simp at h
          | cons a as => simp
      | null => simp at h
      | bool b => simp at h
      | num n => simp at h
      | str s => simp at h
      | obj fs => simp at h

theorem fixTags_operationId (ofs : List (String × Json)) :
    lookupAssoc (fixTags ofs).1 "operationId" = lookupAssoc ofs "operationId" := by
  unfold fixTags
  cases h : lookupAssoc ofs "tags" with
  | none =>
      exact lookupAssoc_setAssoc_ne ofs "tags" "operationId"
        (Json.arr [Json.str "Default"]) (by decide)
  | some v =>
      cases v with
      | arr xs =>
          cases xs with
          | nil =>
              exact lookupAssoc_setAssoc_ne ofs "tags" "operationId"
                (Json.arr [Json.str "Default"]) (by decide)
          | cons a as => simp
      | null =>
          exact lookupAssoc_setAssoc_ne ofs "tags" "operationId"
            (Json.arr [Json.str "Default"]) (by decide)
      | bool b =>
          exact lookupAssoc_setAssoc_ne ofs "tags" "operationId"
            (Json.arr [Json.str "Default"]) (by decide)
      | num n =>
          exact lookupAssoc_setAssoc_ne ofs "tags" "operationId"
            (Json.arr [Json.str "Default"]) (by decide)
      | str s =>
          exact lookupAssoc_setAssoc_ne ofs "tags" "operationId"
            (Json.arr [Json.str "Default"]) (by decide)
      | obj fs =>
          exact lookupAssoc_setAssoc_ne ofs "tags" "operationId"
            (Json.arr [Json.str "Default"]) (by decide)

theorem fixOperationId_tags (k p : String) (ofs : List (String × Json)) :
    lookupAssoc (fixOperationId k p ofs) "tags" = lookupAssoc ofs "tags" := by
  unfold fixOperationId
  by_cases h : truthyOpt (lookupAssoc ofs "operationId") = true
  · simp [h]
  · simp only [Bool.not_eq_true] at h
    rw [h]
    simp only [Bool.false_eq_true, if_false]
    exact lookupAssoc_setAssoc_ne ofs "operationId" "tags"
      (Json.str (synthOperationId k p)) (by decide)

theorem synthOperationId_ne_empty (k p : String)
    (h : memStr (lowerStr k) httpMethods = true) : synthOperationId k p ≠ "" := by
  have hl : 0 < (lowerStr k).length := by
    simp [memStr, httpMethods] at h
    rcases h with h | h | h | h | h | h | h <;> rw [← h] <;> decide
  intro hs
  have h2 : (synthOperationId k p).length = 0 := by rw [hs]; rfl
  unfold synthOperationId at h2
  rw [String.length_append] at h2
  omega

theorem fixOperationId_truthy (k p : String) (ofs : List (String × Json))
    (h : memStr (lowerStr k) httpMethods = true) :
    truthyOpt (lookupAssoc (fixOperationId k p ofs) "operationId") = true := by
  unfold fixOperationId
  by_cases ht : truthyOpt (lookupAssoc ofs "operationId") = true
  · simp [ht]
  · simp only [Bool.not_eq_true] at ht
    rw [ht]
    simp only [Bool.false_eq_true, if_false, lookupAssoc_setAssoc_self]
    simp [truthyOpt, Json.truthy, synthOperationId_ne_empty k p h]

theorem fixOperationId_of_truthy (k p : String) (ofs : List (String × Json))
    (h : truthyOpt (lookupAssoc ofs "operationId") = true) :
    fixOperationId k p ofs = ofs := by
  unfold fixOperationId
  simp [h]

theorem normalizeOp_invariant (k p : String) (ofs : List (String × Json))
    (h : memStr (lowerStr k) httpMethods = true) :
    opInvariant (normalizeOp k p ofs).1 = true := by
  unfold normalizeOp opInvariant
  simp only
  have h1 : hasNonEmptyTags (fixOperationId k p (fixTags ofs).1) = true := by
    unfold hasNonEmptyTags
    rw [fixOperationId_tags]
    exact fixTags_hasNonEmptyTags ofs
  rw [h1, fixOperationId_truthy k p (fixTags ofs).1 h]
  rfl

theorem normalizeOp_of_inv (k p : String) (ofs : List (String × Json))
    (h : opInvariant ofs = true) : normalizeOp k p ofs = (ofs, 0) := by
  unfold opInvariant at h
  simp only [Bool.and_eq_true] at h
  unfold normalizeOp
  rw [fixTags_of_inv ofs h.1]
  simp [fixOperationId_of_truthy k p ofs h.2]

/-- The number of entries of a (normalized) path item that the Normalizer
re-counts as fixed on every pass: the HTTP-method keys mapping to arrays. -/
def arrFixCount : List (String × Json) → Nat
  | [] => 0
  | (k, v) :: rest =>
      (if memStr (lowerStr k) httpMethods then
         match v with
         | .arr _ => 1
         | _ => 0
       else 0) + arrFixCount rest

theorem normalizeEntries_invariant (p : String) (fs : List (String × Json)) :
    ((normalizeEntries p fs).1).all entryInvariant = true := by
  induction fs with
  | nil => simp [normalizeEntries]
  | cons hd rest ih =>
      obtain ⟨k, v⟩ := hd
      by_cases hm : memStr (lowerStr k) httpMethods = true
      · cases v with
        | null => simpa [normalizeEntries, hm] using ih
        | obj ofs =>
            simp [normalizeEntries, hm, List.all_cons, ih, entryInvariant,
              normalizeOp_invariant k p ofs hm]
        | arr xs => simp [normalizeEntries, hm, List.all_cons, ih, entryInvariant]
        | bool b => simp [normalizeEntries, hm, List.all_cons, ih, entryInvariant]
        | num n => simp [normalizeEntries, hm, List.all_cons, ih, entryInvariant]
        | str s => simp [normalizeEntries, hm, List.all_cons, ih, entryInvariant]
      · simp only [Bool.not_eq_true] at hm
        simp [normalizeEntries, hm, List.all_cons, ih, entryInvariant]

theorem normalizeEntries_idem (p : String) (fs : List (String × Json)) :
    normalizeEntries p (normalizeEntries p fs).1 =
      ((normalizeEntries p fs).1, arrFixCount (normalizeEntries p fs).1, 0) := by
  induction fs with
  | nil => simp [normalizeEntries, arrFixCount]
  | cons hd rest ih =>
      obtain ⟨k, v⟩ := hd
      by_cases hm : memStr (lowerStr k) httpMethods = true
      · cases v with
        | null => simpa [normalizeEntries, hm] using ih
        | obj ofs =>
            have hop := normalizeOp_of_inv k p (normalizeOp k p ofs).1
              (normalizeOp_invariant k p ofs hm)
            simp [normalizeEntries, hm, arrFixCount, ih, hop]
        | arr xs =>
            simp [normalizeEntries, hm, arrFixCount, ih]
            omega
        | bool b => simp [normalizeEntries, hm, arrFixCount, ih]
        | num n => simp [normalizeEntries, hm, arrFixCount, ih]
        | str s => simp [normalizeEntries, hm, arrFixCount, ih]
      · simp only [Bool.not_eq_true] at hm
        simp [normalizeEntries, hm, arrFixCount, ih]

theorem arrFixCount_zero (fs : List (String × Json))
    (h : fs.all entryArrFree = true) : arrFixCount fs = 0 := by
  induction fs with
  | nil => simp [arrFixCount]
  | cons hd rest ih =>
      obtain ⟨k, v⟩ := hd
      simp only [List.all_cons, Bool.and_eq_true] at h
      have h2 := ih h.2
      by_cases hm : memStr (lowerStr k) httpMethods = true
      · cases v with
        | arr xs =>
            exfalso
            have h1 := h.1
            simp [entryArrFree, hm] at h1
        | null => simp [arrFixCount, hm, h2]
        | obj ofs => simp [arrFixCount, hm, h2]
        | bool b => simp [arrFixCount, hm, h2]
        | num n => simp [arrFixCount, hm, h2]
        | str s => simp [arrFixCount, hm, h2]
      · simp only [Bool.not_eq_true] at hm
        simp [arrFixCount, hm, h2]

/-- The per-pass re-count for a whole path item. -/
def itemArrCount : Json → Nat
  | .obj fs => arrFixCount fs
  | _ => 0

theorem normalizePathItem_inv (p : String) (item : Json) :
    pathItemInvariant (normalizePathItem p item).1 = true := by
  cases item <;>
    simp [normalizePathItem, pathItemInvariant, normalizeEntries_invariant]

theorem normalizePathItem_idem (p : String) (item : Json) :
    normalizePathItem p (normalizePathItem p item).1 =
      ((normalizePathItem p item).1, itemArrCount (normalizePathItem p item).1, 0) := by
  cases item <;> simp [normalizePathItem, itemArrCount, normalizeEntries_idem]

theorem itemArrCount_zero (item : Json) (h : pathItemArrFree item = true) :
    itemArrCount item = 0 := by
  cases item <;> simp_all [itemArrCount, pathItemArrFree, arrFixCount_zero]

/-- The per-pass re-count for the entries of a `paths` object. -/
def pathsEntriesArrCount : List (String × Json) → Nat
  | [] => 0
  | (_, item) :: rest => itemArrCount item + pathsEntriesArrCount rest

/-- The per-pass re-count for the elements of an array-valued `paths`. -/
def pathsListArrCount : List Json → Nat
  | [] => 0
  | x :: rest => itemArrCount x + pathsListArrCount rest

theorem normalizePathsEntries_inv (fs : List (String × Json)) :
    ((normalizePathsEntries fs).1).all (fun kv => pathItemInvariant kv.2) = true := by
  induction fs with
  | nil => simp [normalizePathsEntries]
  | cons hd rest ih =>
      obtain ⟨p, item⟩ := hd
      simp [normalizePathsEntries, List.all_cons, ih, normalizePathItem_inv]

theorem normalizePathsEntries_idem (fs : List (String × Json)) :
    normalizePathsEntries (normalizePathsEntries fs).1 =
      ((normalizePathsEntries fs).1,
        pathsEntriesArrCount (normalizePathsEntries fs).1, 0) := by
  induction fs with
  | nil => simp [normalizePathsEntries, pathsEntriesArrCount]
  | cons hd rest ih =>
      obtain ⟨p, item⟩ := hd
      simp [normalizePathsEntries, pathsEntriesArrCount, ih,
        normalizePathItem_idem]

theorem normalizePathsArr_inv (i : Nat) (xs : List Json) :
    ((normalizePathsArr i xs).1).all pathItemInvariant = true := by
  induction xs generalizing i with
  | nil => simp [normalizePathsArr]
  | cons x rest ih =>
      simp [normalizePathsArr, List.all_cons, ih, normalizePathItem_inv]

theorem normalizePathsArr_idem (i : Nat) (xs : List Json) :
    normalizePathsArr i (normalizePathsArr i xs).1 =
      ((normalizePathsArr i xs).1,
        pathsListArrCount (normalizePathsArr i xs).1, 0) := by
  induction xs generalizing i with
  | nil => simp [normalizePathsArr, pathsListArrCount]
  | cons x rest ih =>
      simp [normalizePathsArr, pathsListArrCount, ih, normalizePathItem_idem]

/-- The per-pass re-count for the whole `paths` value. -/
def pathsValArrCount : Json → Nat
  | .obj fs => pathsEntriesArrCount fs
  | .arr xs => pathsListArrCount xs
  | _ => 0

theorem normalizePaths_inv (v : Json) :
    pathsInvariant (normalizePaths v).1 = true := by
  cases v <;>
    simp [normalizePaths, pathsInvariant, normalizePathsEntries_inv,
      normalizePathsArr_inv]

theorem normalizePaths_idem (v : Json) :
    normalizePaths (normalizePaths v).1 =
      ((normalizePaths v).1, pathsValArrCount (normalizePaths v).1, 0) := by
  cases v <;>
    simp [normalizePaths, pathsValArrCount, normalizePathsEntries_idem,
      normalizePathsArr_idem]

theorem pathsValArrCount_zero (v : Json) (h : pathsArrFree v = true) :
    pathsValArrCount v = 0 := by
  cases v with
  | obj fs =>
      simp only [pathsArrFree] at h
      simp only [pathsValArrCount]
      induction fs with
      | nil => simp [pathsEntriesArrCount]
      | cons hd rest ih =>
          simp only [List.all_cons, Bool.and_eq_true] at h
          simp [pathsEntriesArrCount, itemArrCount_zero hd.2 h.1, ih h.2]
  | arr xs =>
      simp only [pathsArrFree] at h
      simp only [pathsValArrCount]
      induction xs with
      | nil => simp [pathsListArrCount]
      | cons x rest ih =>
          simp only [List.all_cons, Bool.and_eq_true] at h
          simp [pathsListArrCount, itemArrCount_zero x h.1, ih h.2]
  | null => simp [pathsValArrCount]
  | bool b => simp [pathsValArrCount]
  | num n => simp [pathsValArrCount]
  | str s => simp [pathsValArrCount]

/-- Shape analysis of a successful Normalizer run: the input is an object
whose validated fields survive into the output, the output document is the
input with `tags` guaranteed to be an array and `paths` replaced by its
normalization, and the counters are those of the paths normalization. -/
theorem normalizeSpec_ok_cases (spec d : Json) (f r : Nat)
    (h : normalizeSpec spec = Except.ok (d, f, r)) :
    ∃ fs1 pv,
      d = Json.obj (setAssoc fs1 "paths" (normalizePaths pv).1) ∧
      lookupAssoc fs1 "paths" = some pv ∧
      Json.truthy pv = true ∧ typeofIsObject (some pv) = true ∧
      f = (normalizePaths pv).2.1 ∧ r = (normalizePaths pv).2.2 ∧
      (∃ xs, lookupAssoc fs1 "tags" = some (Json.arr xs)) ∧
      truthyOpt (lookupAssoc fs1 "openapi") = true ∧
      truthyOpt (lookupAssoc fs1 "info") = true ∧
      (truthyOpt (lookupAssoc fs1 "components") &&
        typeofIsObject (lookupAssoc fs1 "components")) = true := by
  obtain ⟨fs, rfl⟩ : ∃ fs, spec = Json.obj fs := by
    cases spec with
    | obj fs => exact ⟨fs, rfl⟩
    | null => simp [normalizeSpec, jsGet, truthyOpt] at h
    | bool b => simp [normalizeSpec, jsGet, truthyOpt] at h
    | num n => simp [normalizeSpec, jsGet, truthyOpt] at h
    | str s => simp [normalizeSpec, jsGet, truthyOpt] at h
    | arr xs => simp [normalizeSpec, jsGet, truthyOpt] at h
  unfold normalizeSpec at h
  simp only [jsGet] at h
  split at h
  · exact absurd h (by simp)
  next g1 =>
  split at h
  · exact absurd h (by simp)
  next g2 =>
  split at h
  · exact absurd h (by simp)
  next g3 =>
  split at h
  · exact absurd h (by simp)
  next g4 =>
  have g1t := eq_true_of_ne_false g1
  have g2t := eq_true_of_ne_false g2
  have g3t := eq_true_of_ne_false g3
  have g4t := eq_true_of_ne_false g4
  simp only [Bool.and_eq_true] at g3t
  obtain ⟨pv, hpv⟩ : ∃ pv, lookupAssoc fs "paths" = some pv := by
    cases hx : lookupAssoc fs "paths" with
    | none => rw [hx] at g3t; simp [truthyOpt] at g3t
    | some v => exact ⟨v, rfl⟩
  have hpvt : Json.truthy pv = true := by
    have := g3t.1; rw [hpv] at this; simpa [truthyOpt] using this
  have hpvo : typeofIsObject (some pv) = true := by
    have := g3t.2; rw [hpv] at this; exact this
  split at h
  next g5 =>
    simp only [jsSet, jsGet] at h
    rw [lookupAssoc_setAssoc_ne fs "tags" "paths" (Json.arr []) (by decide), hpv]
      at h
    simp only [Except.ok.injEq, Prod.mk.injEq] at h
    obtain ⟨hd, hf, hr⟩ := h
    refine ⟨setAssoc fs "tags" (Json.arr []), pv, hd.symm, ?_, hpvt, hpvo,
      hf.symm, hr.symm, ⟨[], lookupAssoc_setAssoc_self fs "tags" (Json.arr [])⟩,
      ?_, ?_, ?_⟩
    · rw [lookupAssoc_setAssoc_ne fs "tags" "paths" (Json.arr []) (by decide)]
      exact hpv
    · rw [lookupAssoc_setAssoc_ne fs "tags" "openapi" (Json.arr []) (by decide)]
      exact g1t
    · rw [lookupAssoc_setAssoc_ne fs "tags" "info" (Json.arr []) (by decide)]
      exact g2t
    · rw [lookupAssoc_setAssoc_ne fs "tags" "components" (Json.arr []) (by decide)]
      exact g4t
  next g5 =>
    have g5t := eq_true_of_ne_false g5
    simp only [Bool.and_eq_true] at g5t
    obtain ⟨tv, htv⟩ : ∃ xs, lookupAssoc fs "tags" = some (Json.arr xs) := by
      cases hx : lookupAssoc fs "tags" with
      | none => rw [hx] at g5t; simp [truthyOpt] at g5t
      | some v =>
          cases v with
          | arr xs => exact ⟨xs, rfl⟩
          | null => rw [hx] at g5t; simp [isArrayOpt] at g5t
          | bool b => rw [hx] at g5t; simp [isArrayOpt] at g5t
          | num n => rw [hx] at g5t; simp [isArrayOpt] at g5t
          | str s => rw [hx] at g5t; simp [isArrayOpt] at g5t
          | obj o => rw [hx] at g5t; simp [isArrayOpt] at g5t
    simp only [jsSet, jsGet] at h
    rw [hpv] at h
    simp only [Except.ok.injEq, Prod.mk.injEq] at h
    obtain ⟨hd, hf, hr⟩ := h
    exact ⟨fs, pv, hd.symm, hpv, hpvt, hpvo, hf.symm, hr.symm, ⟨tv, htv⟩,
      g1t, g2t, g4t⟩

theorem normalizePaths_shape (v : Json) (ht : Json.truthy v = true)
    (ho : typeofIsObject (some v) = true) :
    Json.truthy (normalizePaths v).1 = true ∧
      typeofIsObject (some (normalizePaths v).1) = true := by
  cases v <;> simp_all [normalizePaths, Json.truthy, typeofIsObject]

/-- Running the Normalizer on an already-validated object evaluates the
guards away: the run succeeds and replaces `paths` by its normalization. -/
theorem normalizeSpec_self (fs2 : List (String × Json)) (P : Json)
    (hopen : truthyOpt (lookupAssoc fs2 "openapi") = true)
    (hinfo : truthyOpt (lookupAssoc fs2 "info") = true)
    (hpaths : lookupAssoc fs2 "paths" = some P)
    (hPt : Json.truthy P = true) (hPo : typeofIsObject (some P) = true)
    (hcomp : (truthyOpt (lookupAssoc fs2 "components") &&
      typeofIsObject (lookupAssoc fs2 "components")) = true)
    (htags : ∃ xs, lookupAssoc fs2 "tags" = some (Json.arr xs)) :
    normalizeSpec (Json.obj fs2) =
      Except.ok (Json.obj (setAssoc fs2 "paths" (normalizePaths P).1),
        (normalizePaths P).2.1, (normalizePaths P).2.2) := by
  obtain ⟨xs, htg⟩ := htags
  unfold normalizeSpec
  simp only [jsGet, hopen, hinfo, hpaths, hcomp, htg, jsSet]
  simp only [truthyOpt, isArrayOpt, hPt]
  simp [hPo, Json.truthy, jsSet, jsGet, hpaths]

/-!
The claims. -/

/-- A validated document whose only operation is an empty object: the
Normalizer adds a default tag and a synthesized operationId. -/
def exDocC1 : Json :=
  .obj [("openapi", .str "3"), ("info", .obj []),
    ("paths", .obj [("/a", .obj [("get", .obj [])])]), ("components", .obj [])]

def exDocC1Out : Json :=
  .obj [("openapi", .str "3"), ("info", .obj []),
    ("paths", .obj [("/a", .obj [("get",
      .obj [("tags", .arr [.str "Default"]), ("operationId", .str "getA")])])]),
    ("components", .obj []), ("tags", .arr [])]

/-- A validated document with a JSON array under an HTTP-method key. -/
def exArrDoc : Json :=
  .obj [("openapi", .str "3.0.0"), ("info", .obj []),
    ("paths", .obj [("/a", .obj [("get", .arr [])])]), ("components", .obj [])]

/-- The on-disk output of the Normalizer on `exArrDoc`: the array survives
unchanged (properties assigned to it are dropped by JSON serialization) and
only the top-level `tags` is added. -/
def exArrDocOut : Json :=
  .obj [("openapi", .str "3.0.0"), ("info", .obj []),
    ("paths", .obj [("/a", .obj [("get", .arr [])])]), ("components", .obj []),
    ("tags", .arr [])]

/-- Claim C1, counterexample: on the validated document `exArrDoc` the first
pass reports one fixed path, and the second pass — run on the first pass
output — again reports one fixed path instead of zero: the `tags` property
assigned to the array value is dropped by serialization, so the fix is
re-counted on every pass.  (The document itself, hence the serialized bytes,
is stable.) -/
theorem normalizer_idempotence_cx :
    normalizeSpec exArrDoc = Except.ok (exArrDocOut, 1, 0) ∧
      normalizeSpec exArrDocOut = Except.ok (exArrDocOut, 1, 0) := ⟨rfl, rfl⟩

/-- Claim C1 (amended): for every document that passes structural validation,
the second pass leaves the document unchanged — so the pretty-printed bytes
are identical — and removes no null operations; the fixed-paths counter of
the second pass is zero provided no HTTP-method key maps to a JSON array
(an array is re-counted as fixed on every pass). -/
theorem normalizer_idempotent_amended (spec d : Json) (f r : Nat)
    (h : normalizeSpec spec = Except.ok (d, f, r)) :
    ∃ f2, normalizeSpec d = Except.ok (d, f2, 0) ∧
      (specArrFree d = true → f2 = 0) ∧
      (∀ d2 f2' r2, normalizeSpec d = Except.ok (d2, f2', r2) →
        prettyPrintSpec d2 = prettyPrintSpec d) := by
  obtain ⟨fs1, pv, hd, hpv, hpvt, hpvo, hf, hr, ⟨xs, htg⟩, hopen, hinfo, hcomp⟩ :=
    normalizeSpec_ok_cases spec d f r h
  have hshape := normalizePaths_shape pv hpvt hpvo
  have hpaths2 : lookupAssoc (setAssoc fs1 "paths" (normalizePaths pv).1) "paths" =
      some (normalizePaths pv).1 := lookupAssoc_setAssoc_self fs1 "paths" _
  have hopen2 : truthyOpt (lookupAssoc (setAssoc fs1 "paths" (normalizePaths pv).1)
      "openapi") = true := by
    rw [lookupAssoc_setAssoc_ne fs1 "paths" "openapi" _ (by decide)]; exact hopen
  have hinfo2 : truthyOpt (lookupAssoc (setAssoc fs1 "paths" (normalizePaths pv).1)
      "info") = true := by
    rw [lookupAssoc_setAssoc_ne fs1 "paths" "info" _ (by decide)]; exact hinfo
  have hcomp2 : (truthyOpt (lookupAssoc (setAssoc fs1 "paths" (normalizePaths pv).1)
      "components") && typeofIsObject (lookupAssoc
        (setAssoc fs1 "paths" (normalizePaths pv).1) "components")) = true := by
    rw [lookupAssoc_setAssoc_ne fs1 "paths" "components" _ (by decide)]; exact hcomp
  have htags2 : lookupAssoc (setAssoc fs1 "paths" (normalizePaths pv).1) "tags" =
      some (Json.arr xs) := by
    rw [lookupAssoc_setAssoc_ne fs1 "paths" "tags" _ (by decide)]; exact htg
  have hsel := normalizeSpec_self (setAssoc fs1 "paths" (normalizePaths pv).1)
    (normalizePaths pv).1 hopen2 hinfo2 hpaths2 hshape.1 hshape.2 hcomp2 ⟨xs, htags2⟩
  rw [normalizePaths_idem pv] at hsel
  simp only at hsel
  rw [setAssoc_of_lookup_self _ "paths" _ hpaths2] at hsel
  rw [hd]
  refine ⟨pathsValArrCount (normalizePaths pv).1, hsel, ?_, ?_⟩
  · intro harr
    unfold specArrFree at harr
    simp only [jsGet, hpaths2, Option.getD_some] at harr
    exact pathsValArrCount_zero _ harr
  · intro d2 f2' r2 h2
    rw [hsel] at h2
    simp only [Except.ok.injEq, Prod.mk.injEq] at h2
    rw [h2.1]

/-- Claim C1, witness instance of the amended theorem. -/
theorem normalizer_idempotent_amended_witness :
    ∃ f2, normalizeSpec exDocC1Out = Except.ok (exDocC1Out, f2, 0) ∧
      (specArrFree exDocC1Out = true → f2 = 0) ∧
      (∀ d2 f2' r2, normalizeSpec exDocC1Out = Except.ok (d2, f2', r2) →
        prettyPrintSpec d2 = prettyPrintSpec exDocC1Out) :=
  normalizer_idempotent_amended exDocC1 exDocC1Out 1 0 rfl

/-- A validated document with one skipped (string-valued) method entry and
one operation whose operationId is a truthy number. -/
def exSkipDoc : Json :=
  .obj [("openapi", .str "3.0.0"), ("info", .obj []),
    ("paths", .obj [("/a", .obj [("get", .str "oops"),
      ("post", .obj [("operationId", .num 5)])])]),
    ("components", .obj [])]

def exSkipDocOut : Json :=
  .obj [("openapi", .str "3.0.0"), ("info", .obj []),
    ("paths", .obj [("/a", .obj [("get", .str "oops"),
      ("post", .obj [("operationId", .num 5),
        ("tags", .arr [.str "Default"])])])]),
    ("components", .obj []), ("tags", .arr [])]

/-- Claim C2, counterexample: `exSkipDoc` passes validation, yet after
normalization the method key `get` still maps to the string value the
Normalizer skips (which has no tags), and the `post` operation keeps its
truthy numeric operationId — so the claimed invariant (every method key
carries an operation with a non-empty tags array and a non-empty operationId
string) is false on the output. -/
theorem normalizer_post_invariant_cx :
    normalizeSpec exSkipDoc = Except.ok (exSkipDocOut, 1, 0) ∧
      claimSpecOk exSkipDocOut = false := ⟨rfl, rfl⟩

/-- Claim C2 (amended): after a successful Normalizer run the top-level
`tags` is an array, no HTTP-method key maps to null, and every method key
whose value is an object carries a non-empty `tags` array and a truthy
`operationId`.  (Non-object method values are skipped by the Normalizer and
keep no tags; a pre-existing truthy operationId may be a non-string.) -/
theorem normalizer_post_invariant (spec d : Json) (f r : Nat)
    (h : normalizeSpec spec = Except.ok (d, f, r)) : specInvariant d = true := by
  obtain ⟨fs1, pv, hd, hpv, hpvt, hpvo, hf, hr, ⟨xs, htg⟩, _, _, _⟩ :=
    normalizeSpec_ok_cases spec d f r h
  subst hd
  unfold specInvariant
  simp only [jsGet]
  rw [lookupAssoc_setAssoc_ne fs1 "paths" "tags" _ (by decide), htg,
    lookupAssoc_setAssoc_self]
  simp [isArrayOpt, normalizePaths_inv]

/-- A validated document used to instantiate the amended C2 theorem. -/
def exDocC2 : Json :=
  .obj [("openapi", .str "3"), ("info", .obj []),
    ("paths", .obj [("/b", .obj [("post", .obj [])])]), ("components", .obj [])]

def exDocC2Out : Json :=
  .obj [("openapi", .str "3"), ("info", .obj []),
    ("paths", .obj [("/b", .obj [("post",
      .obj [("tags", .arr [.str "Default"]), ("operationId", .str "postB")])])]),
    ("components", .obj []), ("tags", .arr [])]

/-- Claim C2, witness instance of the amended theorem. -/
theorem normalizer_post_invariant_witness : specInvariant exDocC2Out = true :=
  normalizer_post_invariant exDocC2 exDocC2Out 1 0 rfl

/-- Claim C3: whenever the parsed document lacks the `openapi` field, lacks
`info`, has `paths` absent or not of object type, or has `components` absent
or not of object type, the script fails with a diagnostic and nothing is
written to disk (`preGenerate` produces no output; validation precedes every
mutation and the write). -/
theorem structural_validation_fatal (spec : Json)
    (h : jsGet spec "openapi" = none ∨ jsGet spec "info" = none ∨
      jsGet spec "paths" = none ∨ typeofIsObject (jsGet spec "paths") = false ∨
      jsGet spec "components" = none ∨
      typeofIsObject (jsGet spec "components") = false) :
    (∃ msg, normalizeSpec spec = Except.error msg) ∧ preGenerate spec = none := by
  have herr : ∃ msg, normalizeSpec spec = Except.error msg := by
    unfold normalizeSpec
    by_cases g1 : truthyOpt (jsGet spec "openapi") = false
    · rw [if_pos g1]; exact ⟨_, rfl⟩
    · rw [if_neg g1]
      by_cases g2 : truthyOpt (jsGet spec "info") = false
      · rw [if_pos g2]; exact ⟨_, rfl⟩
      · rw [if_neg g2]
        by_cases g3 : (truthyOpt (jsGet spec "paths") &&
            typeofIsObject (jsGet spec "paths")) = false
        · rw [if_pos g3]; exact ⟨_, rfl⟩
        · rw [if_neg g3]
          by_cases g4 : (truthyOpt (jsGet spec "components") &&
              typeofIsObject (jsGet spec "components")) = false
          · rw [if_pos g4]; exact ⟨_, rfl⟩
          · exfalso
            have g1t := eq_true_of_ne_false g1
            have g2t := eq_true_of_ne_false g2
            have g3t := eq_true_of_ne_false g3
            have g4t := eq_true_of_ne_false g4
            simp only [Bool.and_eq_true] at g3t g4t
            rcases h with hc | hc | hc | hc | hc | hc
            · rw [hc] at g1t; simp [truthyOpt] at g1t
            · rw [hc] at g2t; simp [truthyOpt] at g2t
            · have := g3t.1; rw [hc] at this; simp [truthyOpt] at this
            · exact absurd g3t.2 (by simp [hc])
            · have := g4t.1; rw [hc] at this; simp [truthyOpt] at this
            · exact absurd g4t.2 (by simp [hc])
  refine ⟨herr, ?_⟩
  obtain ⟨msg, hmsg⟩ := herr
  unfold preGenerate
  rw [hmsg]

/-- Claim C3, witness instance: the empty object lacks every section. -/
theorem structural_validation_fatal_witness :
    (∃ msg, normalizeSpec (Json.obj []) = Except.error msg) ∧
      preGenerate (Json.obj []) = none :=
  structural_validation_fatal (Json.obj []) (Or.inl rfl)

/-- The defective model file of claim C4. -/
def defectiveCompteFile : String := "export type CompteTransfertIntraRequest = ;"

/-- Its repaired form: the declaration rewritten with the correction-table
body for CompteTransfertIntraRequest. -/
def repairedCompteFile : String :=
  "export type CompteTransfertIntraRequest = \x7b\n    txId: string;\n    montant: number;\n    motif?: string;\n    payeurNumero?: string;\n    payeNumero?: string;\n    payeurAlias?: string;\n    payeAlias?: string;\n\x7d;"

set_option maxRecDepth 100000 in
/-- Claim C4: on a file that is exactly the empty
CompteTransfertIntraRequest alias, the Patcher rewrites the declaration with
the correction-table body — required txId and montant, five optional string
fields — counting one fix; a second run over the repaired file performs zero
replacements and leaves it unmodified (the empty-body pattern no longer
occurs). -/
theorem empty_type_repair_exactness :
    fixFileContent defectiveCompteFile = ⟨repairedCompteFile, 1, true⟩ ∧
      fixFileContent repairedCompteFile = ⟨repairedCompteFile, 0, false⟩ :=
  ⟨rfl, rfl⟩

/-- Claim C5: whenever an operation object lacks a truthy operationId, the
fix stores the id built from the lowercased method key followed by the
capitalized non-empty, non-parameter segments of the path; in particular
method post with path /comptes/(numero)/transferts yields exactly
postComptesTransferts. -/
theorem operationId_synthesis :
    (∀ (k p : String) (ofs : List (String × Json)),
        truthyOpt (lookupAssoc ofs "operationId") = false →
        lookupAssoc (fixOperationId k p ofs) "operationId" =
          some (Json.str (lowerStr k ++
            String.mk (((splitOnChar '/' p.data).filter segmentKeep).map
              capitalizeSeg).flatten))) ∧
      synthOperationId "post" "/comptes/\x7bnumero\x7d/transferts" =
        "postComptesTransferts" := by
  constructor
  · intro k p ofs hop
    unfold fixOperationId
    rw [hop]
    simp only [Bool.false_eq_true, if_false]
    rw [lookupAssoc_setAssoc_self]
    rfl
  · rfl

/-- Claim C5, witness instance. -/
theorem operationId_synthesis_witness :
    truthyOpt (lookupAssoc ([] : List (String × Json)) "operationId") = false ∧
      lookupAssoc (fixOperationId "get" "/a" []) "operationId" =
        some (Json.str "getA") :=
  ⟨rfl, (operationId_synthesis.1 "get" "/a" [] rfl).trans rfl⟩

/-- Claim C9: a file whose only content is an empty alias for a type that is
not in the correction table gets zero fixes, is reported unmodified, and is
not rewritten on disk. -/
theorem unknown_empty_type_untouched :
    fixFileContent "export type SomeUnknownType = ;" =
        ⟨"export type SomeUnknownType = ;", 0, false⟩ ∧
      patchFile "export type SomeUnknownType = ;" = none :=
  ⟨rfl, rfl⟩

/-- A model file with two empty remise fields, one required and one
optional. -/
def remiseTwoFile : String := "  remise: ;\n  remise?: ;\n"

/-- Its repaired form: both occurrences rewritten in the optional form. -/
def remiseTwoFileOut : String :=
  "  remise?: \x7b\n    montant?: number;\n    taux?: number;\n\x7d\n  remise?: \x7b\n    montant?: number;\n    taux?: number;\n\x7d\n"

/-- Claim C8: on a file without rule-1 matches, the presence of at least one
inline empty remise field contributes exactly one fix from the inline rule
(plus at most the independent literal rule), never one per occurrence; and
on the concrete two-occurrence file — one required, one optional — both
occurrences are rewritten to the optional form with a total count of one. -/
theorem remise_inline_repair :
    (∀ s : String, findEmptyTypeFrom s.data 0 = none →
        hasRemiseMatch s.data = true →
        (fixFileContent s).fixed =
          1 + (if containsLiteral "remise: ;".data (replaceRemise s.data)
               then 1 else 0)) ∧
      fixFileContent remiseTwoFile = ⟨remiseTwoFileOut, 1, true⟩ := by
  constructor
  · intro s h1 h2
    simp only [fixFileContent]
    unfold execEmptyTypeLoop
    rw [h1]
    simp only [h2, if_true]
    split
    · rfl
    · rfl
  · exact rfl

/-- Claim C8, witness instance of the counting part. -/
theorem remise_inline_repair_witness :
    findEmptyTypeFrom " remise?: ;x".data 0 = none ∧
      hasRemiseMatch " remise?: ;x".data = true ∧
      (fixFileContent " remise?: ;x").fixed =
        1 + (if containsLiteral "remise: ;".data
              (replaceRemise " remise?: ;x".data) then 1 else 0) :=
  ⟨rfl, rfl, remise_inline_repair.1 " remise?: ;x" rfl rfl⟩

/-- The error kind of a mapper outcome, for stating the classification. -/
def thrownKind : Thrown → String
  | .sdk (.validation _ _ _ _ _ _) => "validation"
  | .sdk (.auth _ _ _) => "auth"
  | .sdk (.notFound _ _ _) => "notFound"
  | .sdk (.rateLimit _ _ _) => "rateLimit"
  | .sdk (.generic _ _ _ _ _ _) => "generic"
  | .reraise _ => "rethrow"

/-- The concrete 404 failure object of the claim. -/
def exNotFound : Json :=
  .obj [("status", .num 404), ("statusText", .str "Not Found"),
    ("body", .obj [("detail", .str "missing")])]

/-- Claim C6: every ApiError-shaped value is turned into an SDK error chosen
by status — 400 validation, 401 auth, 403 generic, 404 not-found, 429
rate-limit, anything else generic — so the mapper always throws; the
concrete 404 object is mapped to a not-found error carrying the message
missing; and every value without the three duck-typed properties is
re-thrown unchanged. -/
theorem error_mapper_classification :
    (∀ e : Json, hasApiShape e = false → handleApiError e = .reraise e) ∧
      (∀ e : Json, hasApiShape e = true →
        (propJs e "status" = .num 400 →
          thrownKind (handleApiError e) = "validation") ∧
        (propJs e "status" = .num 401 → thrownKind (handleApiError e) = "auth") ∧
        (propJs e "status" = .num 403 →
          thrownKind (handleApiError e) = "generic") ∧
        (propJs e "status" = .num 404 →
          thrownKind (handleApiError e) = "notFound") ∧
        (propJs e "status" = .num 429 →
          thrownKind (handleApiError e) = "rateLimit") ∧
        ((∀ n : Int, propJs e "status" = .num n →
            n ∉ ([400, 401, 403, 404, 429] : List Int)) →
          thrownKind (handleApiError e) = "generic") ∧
        (∃ err, handleApiError e = .sdk err)) ∧
      handleApiError exNotFound =
        .sdk (.notFound (.str "missing") (.num 404) (.str "Not Found")) := by
  refine ⟨?_, ?_, rfl⟩
  · intro e he
    unfold handleApiError
    rw [he]
    simp
  · intro e he
    unfold handleApiError
    rw [he]
    simp only [if_true]
    refine ⟨?_, ?_, ?_, ?_, ?_, ?_, ?_⟩
    · intro hs; simp [jsEqNum, hs, thrownKind]
    · intro hs; simp [jsEqNum, hs, thrownKind]
    · intro hs; simp [jsEqNum, hs, thrownKind]
    · intro hs; simp [jsEqNum, hs, thrownKind]
    · intro hs; simp [jsEqNum, hs, thrownKind]
    · intro hn
      have hall : ∀ m : Int, m ∈ ([400, 401, 403, 404, 429] : List Int) →
          jsEqNum (propJs e "status") m = false := by
        intro m hm
        cases hst : propJs e "status" with
        | num n =>
            have hnin := hn n hst
            simp only [jsEqNum, beq_eq_false_iff_ne, ne_eq]
            intro hEq
            exact hnin (hEq ▸ hm)
        | null => simp [jsEqNum]
        | bool b => simp [jsEqNum]
        | str v => simp [jsEqNum]
        | arr v => simp [jsEqNum]
        | obj v => simp [jsEqNum]
      simp [hall 400 (by simp), hall 401 (by simp), hall 403 (by simp),
        hall 404 (by simp), hall 429 (by simp), thrownKind]
    · split
      · exact ⟨_, rfl⟩
      · split
        · exact ⟨_, rfl⟩
        · split
          · exact ⟨_, rfl⟩
          · split
            · exact ⟨_, rfl⟩
            · split
              · exact ⟨_, rfl⟩
              · exact ⟨_, rfl⟩

/-- Claim C6, witness instance: the 404 object is classified not-found and a
non-shaped value is re-thrown identically. -/
theorem error_mapper_classification_witness :
    thrownKind (handleApiError exNotFound) = "notFound" ∧
      handleApiError (Json.str "boom") = .reraise (Json.str "boom") :=
  ⟨(error_mapper_classification.2.1 exNotFound rfl).2.2.2.1 rfl,
    error_mapper_classification.1 (Json.str "boom") rfl⟩

/-- Claim C7: the documented builder chain renders exactly the claimed
mapping — the eq filter bare, the gte filter bracketed with a stringified
value, page stringified, size numeric, and the descending sort as a single
minus-prefixed entry. -/
theorem query_builder_contract :
    ((QueryBuilder.init.filter "montant" (.str "gte") (some (.num 10000))).bind
        fun q => (q.filter "statut" (.str "eq") (some (.str "IRREVOCABLE"))).bind
          fun q => (((q.sort "dateCreation" .desc).page (.num 1)).size 50).map
            fun q => q.build) =
      .ok [("page", .str "1"), ("size", .num 50),
        ("montant[gte]", .str "10000"), ("statut", .str "IRREVOCABLE"),
        ("sort", .str "-dateCreation")] := rfl

/-- Claim C10: a two-argument filter call whose argument is a string equal to
one of the twelve operator names throws, every other two-argument call is
stored as an eq filter with that argument as value, and consequently a
two-argument call can never store a filter whose value is an operator name. -/
theorem filter_two_arg_edge :
    (∀ (qb : QueryBuilder) (field s : String), isOperator s = true →
        qb.filter field (.str s) none =
          .error "Filter operator requires a value") ∧
      (∀ (qb : QueryBuilder) (field : String) (x : FVal),
        (∀ s, x = .str s → isOperator s = false) →
        qb.filter field x none =
          .ok ⟨qb.params, setAssoc qb.filters field ⟨.str "eq", x⟩,
            qb.sortField, qb.sortOrder⟩) ∧
      (∀ (qb : QueryBuilder) (field : String) (x : FVal) (qb' : QueryBuilder),
        qb.filter field x none = .ok qb' →
        ∀ opts : FilterOpts, lookupAssoc qb'.filters field = some opts →
        ∀ s : String, opts.value = .str s → isOperator s = false) := by
  refine ⟨?_, ?_, ?_⟩
  · intro qb field s hs
    unfold QueryBuilder.filter
    simp [hs]
  · intro qb field x hx
    cases x with
    | str s => simp [QueryBuilder.filter, hx s rfl]
    | num n => simp [QueryBuilder.filter]
    | bool b => simp [QueryBuilder.filter]
    | list xs => simp [QueryBuilder.filter]
  · intro qb field x qb' hok opts hlook s hval
    cases x with
    | str t =>
        by_cases hop : isOperator t = true
        · simp [QueryBuilder.filter, hop] at hok
        · simp only [Bool.not_eq_true] at hop
          simp [QueryBuilder.filter, hop] at hok
          rw [← hok] at hlook
          simp only at hlook
          rw [lookupAssoc_setAssoc_self] at hlook
          have : opts = ⟨.str "eq", .str t⟩ := by
            injection hlook with h2; exact h2.symm
          rw [this] at hval
          simp only at hval
          injection hval with hv
          rw [← hv]
          exact hop
    | num n =>
        simp [QueryBuilder.filter] at hok
        rw [← hok] at hlook
        simp only at hlook
        rw [lookupAssoc_setAssoc_self] at hlook
        have : opts = ⟨.str "eq", .num n⟩ := by
          injection hlook with h2; exact h2.symm
        rw [this] at hval
        simp at hval
    | bool b =>
        simp [QueryBuilder.filter] at hok
        rw [← hok] at hlook
        simp only at hlook
        rw [lookupAssoc_setAssoc_self] at hlook
        have : opts = ⟨.str "eq", .bool b⟩ := by
          injection hlook with h2; exact h2.symm
        rw [this] at hval
        simp at hval
    | list xs =>
        simp [QueryBuilder.filter] at hok
        rw [← hok] at hlook
        simp only at hlook
        rw [lookupAssoc_setAssoc_self] at hlook
        have : opts = ⟨.str "eq", .list xs⟩ := by
          injection hlook with h2; exact h2.symm
        rw [this] at hval
        simp at hval

/-- Claim C10, witness instance: a two-argument call with the operator name
gte throws, and one with a number is stored as an eq filter. -/
theorem filter_two_arg_edge_witness :
    isOperator "gte" = true ∧
      QueryBuilder.init.filter "a" (.str "gte") none =
        .error "Filter operator requires a value" ∧
      QueryBuilder.init.filter "a" (.num 5) none =
        .ok ⟨[], [("a", ⟨.str "eq", .num 5⟩)], none, .asc⟩ :=
  ⟨rfl, filter_two_arg_edge.1 QueryBuilder.init "a" "gte" rfl,
    filter_two_arg_edge.2.1 QueryBuilder.init "a" (.num 5)
      (fun s h => by cases h)⟩
